import Mathlib

/-!
Verification of the memory/engagement core of the psycho-trader journaling
application: a shallow embedding of `src/db/models.py`, `src/memory/repository.py`
and `src/memory/service.py`, together with theorems settling the behavioural
claims about streak updates, connection depth, achievements, memory retrieval
and relevance scores.

Modelling conventions:
* Timestamps (`datetime.utcnow()`) are natural numbers of seconds; a calendar
  day (`datetime.date()`) is the timestamp divided by 86400, and
  `timedelta.days` is floor division of the signed difference by 86400.
* Database rows are Lean structures; each table is a list inside `Store`,
  with auto-increment primary-key counters.
* `people_mentioned` is stored in the database as a JSON text column; the
  embedding keeps it as the parsed `Option (List String)` value (the JSON
  serialisation round-trip of `batch_store_observations` /
  `check_and_unlock_achievements` is elided).
* Fallible operations (`Optional` returns in Python) return `Option`.
-/

/-- Seconds in one calendar day. -/
def secondsPerDay : Nat := 86400

/-- `datetime.date()` of a timestamp: the calendar-day number. -/
def dateOf (t : Nat) : Nat := t / secondsPerDay

/-- `(today - last_date).days` for two date objects: signed day gap. -/
def dayGap (now last : Nat) : Int := (dateOf now : Int) - (dateOf last : Int)

/-- `(a - b).days` for two datetimes: floor of the signed second difference. -/
def daysBetween (a b : Nat) : Int := Int.fdiv ((a : Int) - (b : Int)) (secondsPerDay : Int)

/-- Row of the `users` table (`src/db/models.py`, class `User`). -/
structure User where
  id : Nat
  user_id : String
  created_at : Nat
  first_interaction_date : Option Nat
  last_interaction_date : Option Nat
  total_sessions : Nat
  current_streak : Nat
  longest_streak : Nat
  connection_depth : Nat
deriving DecidableEq, Repr

/-- Row of the `memories` table (`src/db/models.py`, class `Memory`). -/
structure Memory where
  id : Nat
  user_id : Nat
  observation : String
  interpretation : Option String
  category : Option String
  created_at : Nat
  relevance_score : Int
  follow_up_question : Option String
  people_mentioned : Option (List String)
  is_identity_statement : Bool
  is_breakthrough_moment : Bool
deriving DecidableEq, Repr

/-- Row of the `sessions` table (`src/db/models.py`, class `Session`). -/
structure SessionRec where
  id : Nat
  user_id : Nat
  user_input : String
  agent_response : String
  created_at : Nat
deriving DecidableEq, Repr

/-- Row of the `achievements` table (`src/db/models.py`, class `Achievement`). -/
structure Achievement where
  id : Nat
  user_id : Nat
  achievement_key : String
  unlocked_at : Nat
  celebrated : Bool
deriving DecidableEq, Repr

/-- The relational store backing the repository. -/
structure Store where
  users : List User
  memories : List Memory
  sessions : List SessionRec
  achievements : List Achievement
  nextUserId : Nat
  nextMemoryId : Nat
  nextSessionId : Nat
  nextAchievementId : Nat
deriving DecidableEq, Repr

/-- The empty database. -/
def initStore : Store :=
  { users := [], memories := [], sessions := [], achievements := [],
    nextUserId := 1, nextMemoryId := 1, nextSessionId := 1, nextAchievementId := 1 }

/-- `query(User).filter(User.user_id == user_id).first()`. -/
def findUserByStr (s : Store) (uid : String) : Option User :=
  s.users.find? (fun u => u.user_id == uid)

/-- `query(User).filter(User.id == user_id).first()`. -/
def findUserById (s : Store) (uid : Nat) : Option User :=
  s.users.find? (fun u => u.id == uid)

/-- `MemoryRepository.get_or_create_user`: fetch the user with this external
id, creating it with the column defaults when absent. -/
def getOrCreateUser (s : Store) (uid : String) (now : Nat) : User × Store :=
  match findUserByStr s uid with
  | some u => (u, s)
  | none =>
    let u : User :=
      { id := s.nextUserId, user_id := uid, created_at := now,
        first_interaction_date := none, last_interaction_date := none,
        total_sessions := 0, current_streak := 0, longest_streak := 0,
        connection_depth := 1 }
    (u, { s with users := s.users ++ [u], nextUserId := s.nextUserId + 1 })

/-- `MemoryRepository.create_memory`. -/
def createMemory (s : Store) (uid : Nat) (observation : String)
    (interpretation category : Option String) (relevance_score : Int)
    (follow_up_question : Option String) (people_mentioned : Option (List String))
    (is_identity is_breakthrough : Bool) (now : Nat) : Memory × Store :=
  let m : Memory :=
    { id := s.nextMemoryId, user_id := uid, observation := observation,
      interpretation := interpretation, category := category, created_at := now,
      relevance_score := relevance_score, follow_up_question := follow_up_question,
      people_mentioned := people_mentioned, is_identity_statement := is_identity,
      is_breakthrough_moment := is_breakthrough }
  (m, { s with memories := s.memories ++ [m], nextMemoryId := s.nextMemoryId + 1 })

/-- Ordering used by `order_by(desc(Memory.created_at))`. -/
def recentOrder (a b : Memory) : Prop := b.created_at ≤ a.created_at

instance : DecidableRel recentOrder :=
  fun a b => inferInstanceAs (Decidable (b.created_at ≤ a.created_at))

instance : IsTotal Memory recentOrder :=
  ⟨fun a b => Nat.le_total b.created_at a.created_at⟩

instance : IsTrans Memory recentOrder :=
  ⟨fun _ _ _ hab hbc => Nat.le_trans hbc hab⟩

/-- Ordering used by
`order_by(desc(Memory.relevance_score), desc(Memory.created_at))`. -/
def relevantOrder (a b : Memory) : Prop :=
  b.relevance_score < a.relevance_score ∨
    (a.relevance_score = b.relevance_score ∧ b.created_at ≤ a.created_at)

instance : DecidableRel relevantOrder :=
  fun a b => inferInstanceAs (Decidable (b.relevance_score < a.relevance_score ∨
    (a.relevance_score = b.relevance_score ∧ b.created_at ≤ a.created_at)))

instance : IsTotal Memory relevantOrder := by
  constructor
  intro a b
  unfold relevantOrder
  rcases lt_trichotomy a.relevance_score b.relevance_score with h | h | h
  · exact Or.inr (Or.inl h)
  · rcases Nat.le_total b.created_at a.created_at with h2 | h2
    · exact Or.inl (Or.inr ⟨h, h2⟩)
    · exact Or.inr (Or.inr ⟨h.symm, h2⟩)
  · exact Or.inl (Or.inl h)

instance : IsTrans Memory relevantOrder := by
  constructor
  intro a b c hab hbc
  unfold relevantOrder at *
  rcases hab with h1 | ⟨h1, h1c⟩ <;> rcases hbc with h2 | ⟨h2, h2c⟩
  · exact Or.inl (lt_trans h2 h1)
  · exact Or.inl (h2 ▸ h1)
  · exact Or.inl (h1 ▸ h2)
  · exact Or.inr ⟨h1.trans h2, Nat.le_trans h2c h1c⟩

/-- `MemoryRepository.get_recent_memories`: filter by user (and truthy
category), order by creation time descending, limit. -/
def getRecentMemories (s : Store) (uid : Nat) (limit : Nat)
    (category : Option String) : List Memory :=
  let q := s.memories.filter (fun m => m.user_id == uid)
  let q :=
    match category with
    | some c => if c = "" then q else q.filter (fun m => m.category == some c)
    | none => q
  (List.insertionSort recentOrder q).take limit

/-- `MemoryRepository.get_relevant_memories`: filter by user and minimum
relevance, order by (relevance desc, creation desc), limit. -/
def getRelevantMemories (s : Store) (uid : Nat) (min_relevance : Int)
    (limit : Nat) : List Memory :=
  let q := s.memories.filter
    (fun m => m.user_id == uid && min_relevance ≤ m.relevance_score)
  (List.insertionSort relevantOrder q).take limit

/-- Replace the relevance score of the first memory with the given id
(`query(...).first()` followed by an in-place update). -/
def updateFirstMemory : List Memory → Nat → Int → List Memory
  | [], _, _ => []
  | m :: rest, mid, score =>
    if m.id = mid then { m with relevance_score := score } :: rest
    else m :: updateFirstMemory rest mid score

/-- `MemoryRepository.update_memory_relevance`. -/
def updateMemoryRelevance (s : Store) (mid : Nat) (score : Int) :
    Option Memory × Store :=
  match s.memories.find? (fun m => m.id == mid) with
  | none => (none, s)
  | some m =>
    (some { m with relevance_score := score },
      { s with memories := updateFirstMemory s.memories mid score })

/-- `MemoryRepository.create_session_record`. -/
def createSessionRecord (s : Store) (uid : Nat) (user_input agent_response : String)
    (now : Nat) : SessionRec × Store :=
  let r : SessionRec :=
    { id := s.nextSessionId, user_id := uid, user_input := user_input,
      agent_response := agent_response, created_at := now }
  (r, { s with sessions := s.sessions ++ [r], nextSessionId := s.nextSessionId + 1 })

/-- Streak computation of `MemoryRepository.update_user_stats`: gap 0 keeps
the streak, gap 1 increments it, any other gap (or no prior interaction)
resets it to 1. -/
def streakUpdate (u : User) (now : Nat) : Nat :=
  match u.last_interaction_date with
  | none => 1
  | some last =>
    let d := dayGap now last
    if d = 0 then u.current_streak
    else if d = 1 then u.current_streak + 1
    else 1

/-- `MemoryRepository._calculate_connection_depth`. -/
def calculateConnectionDepth (u : User) (now : Nat) : Nat :=
  let score := 1
  let score := if 3 ≤ u.total_sessions then 2 else score
  let score := if 10 ≤ u.total_sessions then 3 else score
  let score := if 25 ≤ u.total_sessions then 4 else score
  let score := if 50 ≤ u.total_sessions then 5 else score
  let score := if 3 ≤ u.current_streak then min 5 (score + 1) else score
  let score :=
    match u.first_interaction_date with
    | some fd => if (30 : Int) ≤ daysBetween now fd then min 5 (score + 1) else score
    | none => score
  min 5 (max 1 score)

/-- The per-user field updates performed by `update_user_stats` once the user
row has been fetched. -/
def updateUserFields (u : User) (now : Nat) : User :=
  let fd := match u.first_interaction_date with
    | none => some now
    | some d => some d
  let cs := streakUpdate u now
  let ls := if u.longest_streak < cs then cs else u.longest_streak
  let u2 : User :=
    { u with
      first_interaction_date := fd,
      current_streak := cs,
      longest_streak := ls,
      last_interaction_date := some now,
      total_sessions := u.total_sessions + 1 }
  { u2 with connection_depth := calculateConnectionDepth u2 now }

/-- Apply an update function to the first user with the given id. -/
def updateFirstUser : List User → Nat → (User → User) → List User
  | [], _, _ => []
  | u :: rest, uid, f =>
    if u.id = uid then f u :: rest else u :: updateFirstUser rest uid f

/-- `MemoryRepository.update_user_stats`: returns `None` and leaves the store
untouched when the user id matches no row. -/
def updateUserStats (s : Store) (uid : Nat) (now : Nat) : Option User × Store :=
  match findUserById s uid with
  | none => (none, s)
  | some u =>
    (some (updateUserFields u now),
      { s with users := updateFirstUser s.users uid (fun v => updateUserFields v now) })

/-- `MemoryRepository.has_achievement`. -/
def hasAchievement (s : Store) (uid : Nat) (key : String) : Bool :=
  s.achievements.any (fun a => a.user_id == uid && a.achievement_key == key)

/-- `MemoryRepository.unlock_achievement`: create the row (with
`celebrated=False`) only when no row with this (user, key) pair exists. -/
def unlockAchievement (s : Store) (uid : Nat) (key : String) (now : Nat) :
    Option Achievement × Store :=
  if hasAchievement s uid key then (none, s)
  else
    let a : Achievement :=
      { id := s.nextAchievementId, user_id := uid, achievement_key := key,
        unlocked_at := now, celebrated := false }
    (some a,
      { s with
        achievements := s.achievements ++ [a],
        nextAchievementId := s.nextAchievementId + 1 })

/-- Set `celebrated := true` on the first achievement with the given id. -/
def updateFirstAch : List Achievement → Nat → List Achievement
  | [], _ => []
  | a :: rest, aid =>
    if a.id = aid then { a with celebrated := true } :: rest
    else a :: updateFirstAch rest aid

/-- `MemoryRepository.mark_achievement_celebrated`. -/
def markAchievementCelebrated (s : Store) (aid : Nat) :
    Option Achievement × Store :=
  match s.achievements.find? (fun a => a.id == aid) with
  | none => (none, s)
  | some a =>
    (some { a with celebrated := true },
      { s with achievements := updateFirstAch s.achievements aid })

/-- The set of distinct trimmed people names mentioned across memories
(the `people` set of `check_and_unlock_achievements`, on parsed lists). -/
def collectPeople (ms : List Memory) : List String :=
  ms.foldl
    (fun acc m =>
      match m.people_mentioned with
      | none => acc
      | some ps =>
        ps.foldl
          (fun acc2 p =>
            if p = "" then acc2
            else if acc2.contains p.trim then acc2
            else acc2 ++ [p.trim])
          acc)
    []

/-- The fixed achievement condition table computed by
`check_and_unlock_achievements` from the user row and memory counts. -/
def achievementChecks (s : Store) (uid : Nat) : List (String × Bool) :=
  match findUserById s uid with
  | none => []
  | some user =>
    let total_sessions := user.total_sessions
    let current_streak := user.current_streak
    let connection_depth := if user.connection_depth = 0 then 1 else user.connection_depth
    let breakthrough_count :=
      (s.memories.filter (fun m => m.user_id == uid && m.is_breakthrough_moment)).length
    let identity_count :=
      (s.memories.filter (fun m => m.user_id == uid && m.is_identity_statement)).length
    let memories := getRecentMemories s uid 1000 none
    let people_count := (collectPeople memories).length
    [ (("first_step" : String), decide (1 ≤ total_sessions)),
      (("opening_up" : String), decide (5 ≤ memories.length)),
      (("three_day" : String), decide (3 ≤ current_streak)),
      (("week_warrior" : String), decide (7 ≤ current_streak)),
      (("month_master" : String), decide (30 ≤ current_streak)),
      (("trust_builder" : String), decide (2 ≤ connection_depth)),
      (("growing_closer" : String), decide (3 ≤ connection_depth)),
      (("deep_bond" : String), decide (4 ≤ connection_depth)),
      (("truly_known" : String), decide (5 ≤ connection_depth)),
      (("first_insight" : String), decide (1 ≤ breakthrough_count)),
      (("insight_seeker" : String), decide (5 ≤ breakthrough_count)),
      (("self_explorer" : String), decide (10 ≤ identity_count)),
      (("relationship_mapper" : String), decide (5 ≤ people_count)) ]

/-- The unlock loop of `check_and_unlock_achievements` over a condition
table: unlock every key whose condition bit is set, collecting the newly
created rows in order. -/
def runChecks (uid : Nat) (now : Nat) : Store → List (String × Bool) →
    List Achievement × Store
  | s, [] => ([], s)
  | s, (k, c) :: rest =>
    if c then
      match unlockAchievement s uid k now with
      | (some a, s1) =>
        let r := runChecks uid now s1 rest
        (a :: r.1, r.2)
      | (none, s1) => runChecks uid now s1 rest
    else runChecks uid now s rest

/-- `MemoryRepository.check_and_unlock_achievements`. -/
def checkAndUnlockAchievements (s : Store) (uid : Nat) (now : Nat) :
    List Achievement × Store :=
  match findUserById s uid with
  | none => ([], s)
  | some _ => runChecks uid now s (achievementChecks s uid)

/-- One raw observation dictionary passed to
`MemoryService.batch_store_observations` (absent keys are `none`). -/
structure ObsInput where
  observation : Option String
  interpretation : Option String
  category : Option String
  relevance_score : Option Int
  follow_up_question : Option String
  people_mentioned : Option (List String)
  is_identity_statement : Option Bool
  is_breakthrough_moment : Option Bool
deriving DecidableEq, Repr

/-- `MemoryService.store_observation`. -/
def storeObservation (s : Store) (uid : String) (observation : String)
    (interpretation category : Option String) (relevance_score : Int)
    (now : Nat) : Memory × Store :=
  let us := getOrCreateUser s uid now
  createMemory us.2 us.1.id observation interpretation category relevance_score
    none none false false now

/-- One iteration of the `batch_store_observations` loop. -/
def batchStep (uid : Nat) (now : Nat) (acc : List Memory × Store)
    (obs : ObsInput) : List Memory × Store :=
  match obs.observation with
  | none => acc
  | some o =>
    if o = "" then acc
    else
      let ms := createMemory acc.2 uid o obs.interpretation obs.category
        (obs.relevance_score.getD 5) obs.follow_up_question obs.people_mentioned
        (obs.is_identity_statement.getD false) (obs.is_breakthrough_moment.getD false)
        now
      (acc.1 ++ [ms.1], ms.2)

/-- `MemoryService.batch_store_observations`: skips falsy observations,
defaults the relevance score to 5 and the flags to false. -/
def batchStoreObservations (s : Store) (uid : String) (inputs : List ObsInput)
    (now : Nat) : List Memory × Store :=
  let us := getOrCreateUser s uid now
  inputs.foldl (batchStep us.1.id now) ([], us.2)

/-- `MemoryService.build_context_for_interaction`: recent memories plus
memories with relevance at least 7, each list bounded. -/
def buildContextForInteraction (s : Store) (uid : String)
    (include_recent include_relevant : Nat) (now : Nat) :
    (List Memory × List Memory) × Store :=
  let us := getOrCreateUser s uid now
  ((getRecentMemories us.2 us.1.id include_recent none,
    getRelevantMemories us.2 us.1.id 7 include_relevant), us.2)

/-- `MemoryService.mark_memory_as_significant`: promote to score 9. -/
def markMemoryAsSignificant (s : Store) (mid : Nat) : Option Memory × Store :=
  updateMemoryRelevance s mid 9

/-- `MemoryService.decay_memory_relevance`: decay to score 3. -/
def decayMemoryRelevance (s : Store) (mid : Nat) : Option Memory × Store :=
  updateMemoryRelevance s mid 3

/-- `MemoryService.log_interaction`. -/
def logInteraction (s : Store) (uid : String) (user_input agent_response : String)
    (now : Nat) : Store :=
  let us := getOrCreateUser s uid now
  (createSessionRecord us.2 us.1.id user_input agent_response now).2

/-- The public state-changing operations of the repository and service
layers, each tagged with the wall-clock time at which it runs. -/
inductive Op where
  | opGetOrCreateUser (uid : String) (now : Nat)
  | opStoreObservation (uid : String) (observation : String)
      (interpretation category : Option String) (relevance_score : Int) (now : Nat)
  | opBatchStore (uid : String) (inputs : List ObsInput) (now : Nat)
  | opCreateMemory (uid : Nat) (observation : String)
      (interpretation category : Option String) (relevance_score : Int)
      (follow_up_question : Option String) (people_mentioned : Option (List String))
      (is_identity is_breakthrough : Bool) (now : Nat)
  | opCreateSession (uid : Nat) (user_input agent_response : String) (now : Nat)
  | opLogInteraction (uid : String) (user_input agent_response : String) (now : Nat)
  | opUpdateRelevance (mid : Nat) (score : Int)
  | opMarkSignificant (mid : Nat)
  | opDecayRelevance (mid : Nat)
  | opUpdateStats (uid : Nat) (now : Nat)
  | opUnlockAchievement (uid : Nat) (key : String) (now : Nat)
  | opMarkCelebrated (aid : Nat)
  | opCheckUnlock (uid : Nat) (now : Nat)
  | opBuildContext (uid : String) (include_recent include_relevant : Nat) (now : Nat)
deriving DecidableEq, Repr

/-- Effect of one public operation on the store. -/
def applyOp (s : Store) (op : Op) : Store :=
  match op with
  | .opGetOrCreateUser uid now => (getOrCreateUser s uid now).2
  | .opStoreObservation uid o i c r now => (storeObservation s uid o i c r now).2
  | .opBatchStore uid inputs now => (batchStoreObservations s uid inputs now).2
  | .opCreateMemory uid o i c r f p ii ib now =>
      (createMemory s uid o i c r f p ii ib now).2
  | .opCreateSession uid i o now => (createSessionRecord s uid i o now).2
  | .opLogInteraction uid i o now => logInteraction s uid i o now
  | .opUpdateRelevance mid score => (updateMemoryRelevance s mid score).2
  | .opMarkSignificant mid => (markMemoryAsSignificant s mid).2
  | .opDecayRelevance mid => (decayMemoryRelevance s mid).2
  | .opUpdateStats uid now => (updateUserStats s uid now).2
  | .opUnlockAchievement uid key now => (unlockAchievement s uid key now).2
  | .opMarkCelebrated aid => (markAchievementCelebrated s aid).2
  | .opCheckUnlock uid now => (checkAndUnlockAchievements s uid now).2
  | .opBuildContext uid nr nrel now =>
      (buildContextForInteraction s uid nr nrel now).2

/-- A store reachable from the empty database by public operations. -/
def Reachable (s : Store) : Prop :=
  ∃ ops : List Op, s = ops.foldl applyOp initStore

/-- Operations that rewrite the relevance score of an existing memory. -/
def touchesRelevance : Op → Bool
  | .opUpdateRelevance _ _ => true
  | .opMarkSignificant _ => true
  | .opDecayRelevance _ => true
  | _ => false

/-- Operations that rewrite the celebrated flag of an existing achievement. -/
def touchesCelebrated : Op → Bool
  | .opMarkCelebrated _ => true
  | _ => false

/-- Score-wellformedness of the inputs of one operation: every relevance
score handed to the store (after the batch default of 5) lies in [1,10]. -/
def opScoresInRange : Op → Bool
  | .opStoreObservation _ _ _ _ r _ => decide (1 ≤ r ∧ r ≤ 10)
  | .opCreateMemory _ _ _ _ r _ _ _ _ _ => decide (1 ≤ r ∧ r ≤ 10)
  | .opBatchStore _ inputs _ =>
      inputs.all (fun i => decide (1 ≤ i.relevance_score.getD 5 ∧ i.relevance_score.getD 5 ≤ 10))
  | .opUpdateRelevance _ r => decide (1 ≤ r ∧ r ≤ 10)
  | _ => true

/-- Connection depth written the way the specification words it: a stepped
base from total sessions, a streak bonus, a days-together bonus, clamped. -/
def connectionDepthSpec (u : User) (now : Nat) : Nat :=
  let base :=
    if 50 ≤ u.total_sessions then 5
    else if 25 ≤ u.total_sessions then 4
    else if 10 ≤ u.total_sessions then 3
    else if 3 ≤ u.total_sessions then 2
    else 1
  let streakBonus := if 3 ≤ u.current_streak then 1 else 0
  let daysBonus :=
    match u.first_interaction_date with
    | some fd => if (30 : Int) ≤ daysBetween now fd then 1 else 0
    | none => 0
  min 5 (max 1 (base + streakBonus + daysBonus))

/-- A user row with one interaction on day 0, used to exercise the theorems
on concrete data. -/
def demoUser : User :=
  { id := 1, user_id := "alice", created_at := 0,
    first_interaction_date := some 0, last_interaction_date := some 0,
    total_sessions := 1, current_streak := 1, longest_streak := 1,
    connection_depth := 1 }

/-- A store holding just `demoUser`. -/
def demoStore : Store := { initStore with users := [demoUser], nextUserId := 2 }

/-- A two-operation trace: create a user, then run one stats update a day
later. -/
def traceOpsA : List Op := [Op.opGetOrCreateUser ("alice") 0, Op.opUpdateStats 1 86400]

/-- The store reached by `traceOpsA`. -/
def traceStoreA : Store := traceOpsA.foldl applyOp initStore

/-- The user row inside `traceStoreA`. -/
def traceUserA : User :=
  { id := 1, user_id := "alice", created_at := 0,
    first_interaction_date := some 86400, last_interaction_date := some 86400,
    total_sessions := 1, current_streak := 1, longest_streak := 1,
    connection_depth := 1 }

/-- `traceOpsA` followed by an achievement check. -/
def traceOpsB : List Op := traceOpsA ++ [Op.opCheckUnlock 1 90000]

/-- The store reached by `traceOpsB`. -/
def traceStoreB : Store := traceOpsB.foldl applyOp initStore

/-- A single in-range observation stored through the service layer. -/
def traceOpsC : List Op := [Op.opStoreObservation ("alice") ("obs one") none none 8 0]

/-- The store reached by `traceOpsC`. -/
def traceStoreC : Store := traceOpsC.foldl applyOp initStore

/-- The memory row inside `traceStoreC`. -/
def traceMemoryC : Memory :=
  { id := 1, user_id := 1, observation := "obs one", interpretation := none,
    category := none, created_at := 0, relevance_score := 8,
    follow_up_question := none, people_mentioned := none,
    is_identity_statement := false, is_breakthrough_moment := false }

/-- The achievement row created by unlocking a key in `demoStore` at time 5. -/
def demoAchievement : Achievement :=
  { id := 1, user_id := 1, achievement_key := "first_step", unlocked_at := 5,
    celebrated := false }

/-! ## Helper lemmas -/

/-- Fold invariant principle for operation traces. -/
theorem foldl_applyOp_inv (P : Store → Prop) (Q : Op → Prop)
    (hstep : ∀ s op, Q op → P s → P (applyOp s op)) :
    ∀ (ops : List Op) (s0 : Store), (∀ op ∈ ops, Q op) → P s0 →
      P (ops.foldl applyOp s0) := by
  intro ops
  induction ops with
  | nil => intro s0 _ h0; exact h0
  | cons op rest ih =>
    intro s0 hq h0
    exact ih (applyOp s0 op) (fun o ho => hq o (List.mem_cons_of_mem _ ho))
      (hstep s0 op (hq op (List.mem_cons_self _ _)) h0)

/-- The connection-depth score is always within the 1..5 range. -/
theorem connectionDepth_bounds (u : User) (now : Nat) :
    1 ≤ calculateConnectionDepth u now ∧ calculateConnectionDepth u now ≤ 5 := by
  obtain ⟨i, us, ca, fd, ld, ts, cs, ls, cd⟩ := u
  cases fd <;> simp only [calculateConnectionDepth] <;> split_ifs <;> omega

/-- The streak written by `update_user_stats` never exceeds the longest
streak written alongside it; depth stays clamped. -/
theorem updateUserFields_ok (u : User) (now : Nat) :
    (updateUserFields u now).current_streak ≤ (updateUserFields u now).longest_streak ∧
    1 ≤ (updateUserFields u now).connection_depth ∧
    (updateUserFields u now).connection_depth ≤ 5 := by
  refine ⟨?_, ?_⟩
  · simp only [updateUserFields]
    split_ifs <;> omega
  · simpa only [updateUserFields] using connectionDepth_bounds _ now

/-! ## Claims C1, C2, C10: user stats -/

/-- Claim C2: the connection-depth computation equals a base of 1 raised to
2/3/4/5 at the 3/10/25/50 session thresholds, plus 1 for a streak of at
least 3, plus 1 once 30 days have passed since the first interaction,
clamped to the range 1..5. -/
theorem calculateConnectionDepth_correct (u : User) (now : Nat) :
    calculateConnectionDepth u now = connectionDepthSpec u now ∧
    1 ≤ calculateConnectionDepth u now ∧ calculateConnectionDepth u now ≤ 5 := by
  refine ⟨?_, connectionDepth_bounds u now⟩
  obtain ⟨i, us, ca, fd, ld, ts, cs, ls, cd⟩ := u
  cases fd <;> simp only [calculateConnectionDepth, connectionDepthSpec] <;>
    split_ifs <;> omega

/-- Claim C10: when the user id matches no row, `update_user_stats` returns
`None` and leaves the store entirely unchanged. -/
theorem updateUserStats_missing_user (s : Store) (uid now : Nat)
    (h : findUserById s uid = none) :
    updateUserStats s uid now = (none, s) := by
  simp [updateUserStats, h]

/-- Witness for C10 on the empty store. -/
theorem updateUserStats_missing_user_witness :
    findUserById initStore 5 = none ∧ updateUserStats initStore 5 0 = (none, initStore) :=
  ⟨by decide, updateUserStats_missing_user initStore 5 0 (by decide)⟩

/-- Claim C1: one `update_user_stats` call changes the streak by the
calendar-day gap rule (gap 0 keeps it, gap 1 increments it, gap above 1
resets it to 1, no prior interaction sets it to 1) and writes the longest
streak as the maximum of its previous value and the new streak. -/
theorem updateUserStats_gap_rule (s : Store) (uid now : Nat) (u : User)
    (h : findUserById s uid = some u) :
    ∃ u', (updateUserStats s uid now).1 = some u' ∧
      (u.last_interaction_date = none → u'.current_streak = 1) ∧
      (∀ last, u.last_interaction_date = some last →
        (dayGap now last = 0 → u'.current_streak = u.current_streak) ∧
        (dayGap now last = 1 → u'.current_streak = u.current_streak + 1) ∧
        (1 < dayGap now last → u'.current_streak = 1)) ∧
      u'.longest_streak = max u.longest_streak u'.current_streak := by
  refine ⟨updateUserFields u now, by simp [updateUserStats, h], ?_, ?_, ?_⟩
  · intro hl
    simp [updateUserFields, streakUpdate, hl]
  · intro last hl
    refine ⟨?_, ?_, ?_⟩ <;> intro hg
    · simp [updateUserFields, streakUpdate, hl, hg]
    · simp [updateUserFields, streakUpdate, hl, hg]
    · have h0 : dayGap now last ≠ 0 := by omega
      have h1 : dayGap now last ≠ 1 := by omega
      simp [updateUserFields, streakUpdate, hl, h0, h1]
  · simp only [updateUserFields]
    split_ifs <;> omega

/-- Witness for C1: a user whose last interaction was exactly one day ago. -/
theorem updateUserStats_gap_rule_witness :
    findUserById demoStore 1 = some demoUser ∧
    (∃ u', (updateUserStats demoStore 1 86400).1 = some u' ∧
      (demoUser.last_interaction_date = none → u'.current_streak = 1) ∧
      (∀ last, demoUser.last_interaction_date = some last →
        (dayGap 86400 last = 0 → u'.current_streak = demoUser.current_streak) ∧
        (dayGap 86400 last = 1 → u'.current_streak = demoUser.current_streak + 1) ∧
        (1 < dayGap 86400 last → u'.current_streak = 1)) ∧
      u'.longest_streak = max demoUser.longest_streak u'.current_streak) :=
  ⟨by decide, updateUserStats_gap_rule demoStore 1 86400 demoUser (by decide)⟩

/-! ## Retrieval queries: claims C5 and C9 -/

/-- Everything returned by `get_relevant_memories` is a stored memory of the
requested user at or above the threshold. -/
theorem mem_getRelevantMemories {s : Store} {uid : Nat} {minRel : Int}
    {limit : Nat} {m : Memory} (hm : m ∈ getRelevantMemories s uid minRel limit) :
    m ∈ s.memories ∧ m.user_id = uid ∧ minRel ≤ m.relevance_score := by
  simp only [getRelevantMemories] at hm
  have h1 := List.mem_of_mem_take hm
  rw [List.mem_insertionSort, List.mem_filter] at h1
  obtain ⟨hmem, hp⟩ := h1
  simp only [Bool.and_eq_true, beq_iff_eq, decide_eq_true_eq] at hp
  exact ⟨hmem, hp.1, hp.2⟩

/-- `get_relevant_memories` returns at most `limit` rows. -/
theorem length_getRelevantMemories (s : Store) (uid : Nat) (minRel : Int)
    (limit : Nat) : (getRelevantMemories s uid minRel limit).length ≤ limit := by
  simp only [getRelevantMemories]
  exact List.length_take_le _ _

/-- `get_relevant_memories` output is sorted by relevance descending with
ties broken by creation time descending. -/
theorem sorted_getRelevantMemories (s : Store) (uid : Nat) (minRel : Int)
    (limit : Nat) :
    List.Pairwise relevantOrder (getRelevantMemories s uid minRel limit) := by
  simp only [getRelevantMemories]
  exact List.Pairwise.sublist (List.take_sublist _ _)
    (List.sorted_insertionSort relevantOrder _)

/-- Everything returned by `get_recent_memories` is a stored memory of the
requested user. -/
theorem mem_getRecentMemories {s : Store} {uid limit : Nat}
    {cat : Option String} {m : Memory} (hm : m ∈ getRecentMemories s uid limit cat) :
    m ∈ s.memories ∧ m.user_id = uid := by
  simp only [getRecentMemories] at hm
  have h1 := List.mem_of_mem_take hm
  rw [List.mem_insertionSort] at h1
  have h2 : m ∈ s.memories.filter (fun m => m.user_id == uid) := by
    split at h1
    · split at h1
      · exact h1
      · exact (List.mem_filter.1 h1).1
    · exact h1
  rw [List.mem_filter] at h2
  obtain ⟨hmem, hp⟩ := h2
  simp only [beq_iff_eq] at hp
  exact ⟨hmem, hp⟩

/-- `get_recent_memories` returns at most `limit` rows. -/
theorem length_getRecentMemories (s : Store) (uid limit : Nat)
    (cat : Option String) : (getRecentMemories s uid limit cat).length ≤ limit := by
  simp only [getRecentMemories]
  exact List.length_take_le _ _

/-- `get_recent_memories` output is ordered by creation time descending. -/
theorem sorted_getRecentMemories (s : Store) (uid limit : Nat)
    (cat : Option String) :
    List.Pairwise recentOrder (getRecentMemories s uid limit cat) := by
  simp only [getRecentMemories]
  exact List.Pairwise.sublist (List.take_sublist _ _)
    (List.sorted_insertionSort recentOrder _)

/-- Claim C5: `get_relevant_memories` returns only memories of the given
user with relevance at least the threshold, sorted by relevance descending
with ties broken by creation time descending, and at most `limit` of them. -/
theorem getRelevantMemories_correct (s : Store) (uid : Nat) (minRel : Int)
    (limit : Nat) :
    (∀ m ∈ getRelevantMemories s uid minRel limit,
        m ∈ s.memories ∧ m.user_id = uid ∧ minRel ≤ m.relevance_score) ∧
    (getRelevantMemories s uid minRel limit).length ≤ limit ∧
    List.Pairwise (fun a b => b.relevance_score < a.relevance_score ∨
        (a.relevance_score = b.relevance_score ∧ b.created_at ≤ a.created_at))
      (getRelevantMemories s uid minRel limit) :=
  ⟨fun _ hm => mem_getRelevantMemories hm,
    length_getRelevantMemories s uid minRel limit,
    sorted_getRelevantMemories s uid minRel limit⟩

/-- Claim C9: `build_context_for_interaction` returns a recent list of at
most `include_recent` memories of the resolved user ordered by creation
time descending, and a relevant list of at most `include_relevant` memories
of that user each with relevance score at least 7. -/
theorem buildContextForInteraction_correct (s : Store) (uid : String)
    (nr nrel now : Nat) :
    ((buildContextForInteraction s uid nr nrel now).1.1.length ≤ nr ∧
      (∀ m ∈ (buildContextForInteraction s uid nr nrel now).1.1,
        m ∈ (buildContextForInteraction s uid nr nrel now).2.memories ∧
          m.user_id = (getOrCreateUser s uid now).1.id) ∧
      List.Pairwise recentOrder (buildContextForInteraction s uid nr nrel now).1.1) ∧
    ((buildContextForInteraction s uid nr nrel now).1.2.length ≤ nrel ∧
      ∀ m ∈ (buildContextForInteraction s uid nr nrel now).1.2,
        m ∈ (buildContextForInteraction s uid nr nrel now).2.memories ∧
          m.user_id = (getOrCreateUser s uid now).1.id ∧
          (7 : Int) ≤ m.relevance_score) := by
  simp only [buildContextForInteraction]
  refine ⟨⟨?_, ?_, ?_⟩, ?_, ?_⟩
  · exact length_getRecentMemories _ _ _ _
  · intro m hm
    exact mem_getRecentMemories hm
  · exact sorted_getRecentMemories _ _ _ _
  · exact length_getRelevantMemories _ _ _ _
  · intro m hm
    exact mem_getRelevantMemories hm

/-! ## Effect lemmas for the public operations -/

/-- `get_or_create_user` touches no table other than `users`. -/
theorem getOrCreateUser_preserves (s : Store) (uid : String) (now : Nat) :
    (getOrCreateUser s uid now).2.memories = s.memories ∧
    (getOrCreateUser s uid now).2.sessions = s.sessions ∧
    (getOrCreateUser s uid now).2.achievements = s.achievements := by
  rcases h : findUserByStr s uid with _ | v <;> simp [getOrCreateUser, h]

/-- Users after `get_or_create_user` are prior users or a fresh default row. -/
theorem getOrCreateUser_users (s : Store) (uid : String) (now : Nat) :
    ∀ u ∈ (getOrCreateUser s uid now).2.users, u ∈ s.users ∨
      (u.current_streak = 0 ∧ u.longest_streak = 0 ∧ u.connection_depth = 1) := by
  intro u hu
  rcases h : findUserByStr s uid with _ | v <;> simp [getOrCreateUser, h] at hu
  · rcases hu with hu | hu
    · exact Or.inl hu
    · subst hu
      exact Or.inr ⟨rfl, rfl, rfl⟩
  · exact Or.inl hu

/-- `create_memory` only appends one memory row. -/
theorem createMemory_effect (s : Store) (uid : Nat) (o : String)
    (i c : Option String) (r : Int) (f : Option String)
    (p : Option (List String)) (ii ib : Bool) (now : Nat) :
    (createMemory s uid o i c r f p ii ib now).2.users = s.users ∧
    (createMemory s uid o i c r f p ii ib now).2.sessions = s.sessions ∧
    (createMemory s uid o i c r f p ii ib now).2.achievements = s.achievements ∧
    (createMemory s uid o i c r f p ii ib now).2.memories =
      s.memories ++ [(createMemory s uid o i c r f p ii ib now).1] ∧
    (createMemory s uid o i c r f p ii ib now).1.relevance_score = r :=
  ⟨rfl, rfl, rfl, rfl, rfl⟩

/-- `update_memory_relevance` touches only the memory table, by a
first-match score rewrite. -/
theorem updateMemoryRelevance_effect (s : Store) (mid : Nat) (sc : Int) :
    (updateMemoryRelevance s mid sc).2.users = s.users ∧
    (updateMemoryRelevance s mid sc).2.sessions = s.sessions ∧
    (updateMemoryRelevance s mid sc).2.achievements = s.achievements ∧
    ((updateMemoryRelevance s mid sc).2.memories = s.memories ∨
      (updateMemoryRelevance s mid sc).2.memories = updateFirstMemory s.memories mid sc) := by
  rcases h : s.memories.find? (fun m => m.id == mid) with _ | m <;>
    simp [updateMemoryRelevance, h]

/-- `update_user_stats` touches only the user table, by a first-match
field rewrite. -/
theorem updateUserStats_effect (s : Store) (uid now : Nat) :
    (updateUserStats s uid now).2.memories = s.memories ∧
    (updateUserStats s uid now).2.sessions = s.sessions ∧
    (updateUserStats s uid now).2.achievements = s.achievements ∧
    ((updateUserStats s uid now).2.users = s.users ∨
      (updateUserStats s uid now).2.users =
        updateFirstUser s.users uid (fun v => updateUserFields v now)) := by
  rcases h : findUserById s uid with _ | u <;> simp [updateUserStats, h]

/-- `unlock_achievement` touches only the achievement table, appending at
most one uncelebrated row. -/
theorem unlockAchievement_effect (s : Store) (uid : Nat) (key : String) (now : Nat) :
    (unlockAchievement s uid key now).2.users = s.users ∧
    (unlockAchievement s uid key now).2.memories = s.memories ∧
    (unlockAchievement s uid key now).2.sessions = s.sessions ∧
    ((unlockAchievement s uid key now).2.achievements = s.achievements ∨
      ∃ a, (unlockAchievement s uid key now).2.achievements = s.achievements ++ [a] ∧
        a.celebrated = false ∧ a.user_id = uid ∧ a.achievement_key = key) := by
  by_cases h : hasAchievement s uid key = true <;> simp [unlockAchievement, h]

/-- `mark_achievement_celebrated` touches only the achievement table. -/
theorem markAchievementCelebrated_effect (s : Store) (aid : Nat) :
    (markAchievementCelebrated s aid).2.users = s.users ∧
    (markAchievementCelebrated s aid).2.memories = s.memories ∧
    (markAchievementCelebrated s aid).2.sessions = s.sessions ∧
    ((markAchievementCelebrated s aid).2.achievements = s.achievements ∨
      (markAchievementCelebrated s aid).2.achievements = updateFirstAch s.achievements aid) := by
  rcases h : s.achievements.find? (fun a => a.id == aid) with _ | a <;>
    simp [markAchievementCelebrated, h]

/-- The achievement-check loop leaves users, memories and sessions alone. -/
theorem runChecks_preserves (uid now : Nat) :
    ∀ (l : List (String × Bool)) (s : Store),
      (runChecks uid now s l).2.users = s.users ∧
      (runChecks uid now s l).2.memories = s.memories ∧
      (runChecks uid now s l).2.sessions = s.sessions := by
  intro l
  induction l with
  | nil => intro s; exact ⟨rfl, rfl, rfl⟩
  | cons p rest ih =>
    intro s
    obtain ⟨k, c⟩ := p
    by_cases hc : c = true
    · subst hc
      rcases hu : unlockAchievement s uid k now with ⟨oa, s1⟩
      have hs1 : s1 = (unlockAchievement s uid k now).2 := by rw [hu]
      have he := unlockAchievement_effect s uid k now
      cases oa <;> simp only [runChecks, hu, if_true] <;>
        exact ⟨(ih s1).1.trans (hs1 ▸ he.1), (ih s1).2.1.trans (hs1 ▸ he.2.1),
          (ih s1).2.2.trans (hs1 ▸ he.2.2.1)⟩
    · simp only [Bool.not_eq_true] at hc
      subst hc
      simp only [runChecks, if_false, Bool.false_eq_true]
      exact ih s

/-- Existing achievements survive the achievement-check loop. -/
theorem runChecks_ach_mono (uid now : Nat) :
    ∀ (l : List (String × Bool)) (s : Store) (a : Achievement),
      a ∈ s.achievements → a ∈ (runChecks uid now s l).2.achievements := by
  intro l
  induction l with
  | nil => intro s a ha; exact ha
  | cons p rest ih =>
    intro s a ha
    obtain ⟨k, c⟩ := p
    by_cases hc : c = true
    · subst hc
      rcases hu : unlockAchievement s uid k now with ⟨oa, s1⟩
      have hs1 : s1 = (unlockAchievement s uid k now).2 := by rw [hu]
      have ha1 : a ∈ s1.achievements := by
        rcases (unlockAchievement_effect s uid k now).2.2.2 with he | ⟨b, he, _⟩
        · rw [hs1, he]; exact ha
        · rw [hs1, he]; exact List.mem_append_left _ ha
      cases oa <;> simp only [runChecks, hu, if_true] <;> exact ih s1 a ha1
    · simp only [Bool.not_eq_true] at hc
      subst hc
      simp only [runChecks, if_false, Bool.false_eq_true]
      exact ih s a ha

/-- One `batch_store_observations` iteration: only the memory table grows,
and any new row carries the input's (defaulted) relevance score. -/
theorem batchStep_effect (uid now : Nat) (acc : List Memory × Store) (ob : ObsInput) :
    (batchStep uid now acc ob).2.users = acc.2.users ∧
    (batchStep uid now acc ob).2.sessions = acc.2.sessions ∧
    (batchStep uid now acc ob).2.achievements = acc.2.achievements ∧
    ∀ m ∈ (batchStep uid now acc ob).2.memories,
      m ∈ acc.2.memories ∨ m.relevance_score = ob.relevance_score.getD 5 := by
  rcases ho : ob.observation with _ | o
  · simp only [batchStep, ho]
    exact ⟨trivial, trivial, trivial, fun _ hm => Or.inl hm⟩
  · by_cases h0 : o = ""
    · simp only [batchStep, ho, if_pos h0]
      exact ⟨trivial, trivial, trivial, fun _ hm => Or.inl hm⟩
    · simp only [batchStep, ho, if_neg h0, createMemory]
      refine ⟨trivial, trivial, trivial, ?_⟩
      intro m hm
      rcases List.mem_append.1 hm with h | h
      · exact Or.inl h
      · rw [List.mem_singleton] at h
        subst h
        exact Or.inr rfl

/-- The `batch_store_observations` fold: only the memory table grows, and
any new row carries one of the inputs' (defaulted) relevance scores. -/
theorem batchFold_effect (uid now : Nat) :
    ∀ (inputs : List ObsInput) (acc : List Memory × Store),
      ((inputs.foldl (batchStep uid now) acc).2.users = acc.2.users ∧
       (inputs.foldl (batchStep uid now) acc).2.sessions = acc.2.sessions ∧
       (inputs.foldl (batchStep uid now) acc).2.achievements = acc.2.achievements) ∧
      ∀ m ∈ (inputs.foldl (batchStep uid now) acc).2.memories,
        m ∈ acc.2.memories ∨ ∃ i ∈ inputs, m.relevance_score = i.relevance_score.getD 5 := by
  intro inputs
  induction inputs with
  | nil => intro acc; exact ⟨⟨rfl, rfl, rfl⟩, fun m hm => Or.inl hm⟩
  | cons ob rest ih =>
    intro acc
    rw [List.foldl_cons]
    have hs := batchStep_effect uid now acc ob
    have hr := ih (batchStep uid now acc ob)
    refine ⟨⟨hr.1.1.trans hs.1, hr.1.2.1.trans hs.2.1, hr.1.2.2.trans hs.2.2.1⟩, ?_⟩
    intro m hm
    rcases hr.2 m hm with h | ⟨i, hi, he⟩
    · rcases hs.2.2.2 m h with h2 | h2
      · exact Or.inl h2
      · exact Or.inr ⟨ob, List.mem_cons_self _ _, h2⟩
    · exact Or.inr ⟨i, List.mem_cons_of_mem _ hi, he⟩

/-- Rows surviving a first-match user update are old rows or the image of
an old row under the update function. -/
theorem mem_updateFirstUser (l : List User) (uid : Nat) (f : User → User) :
    ∀ u ∈ updateFirstUser l uid f, u ∈ l ∨ ∃ v ∈ l, u = f v := by
  induction l with
  | nil => intro u h; simp [updateFirstUser] at h
  | cons w rest ih =>
    intro u h
    simp only [updateFirstUser] at h
    by_cases hw : w.id = uid
    · rw [if_pos hw] at h
      rcases List.mem_cons.1 h with rfl | h2
      · exact Or.inr ⟨w, List.mem_cons_self _ _, rfl⟩
      · exact Or.inl (List.mem_cons_of_mem _ h2)
    · rw [if_neg hw] at h
      rcases List.mem_cons.1 h with rfl | h2
      · exact Or.inl (List.mem_cons_self _ _)
      · rcases ih u h2 with h3 | ⟨v, hv, he⟩
        · exact Or.inl (List.mem_cons_of_mem _ h3)
        · exact Or.inr ⟨v, List.mem_cons_of_mem _ hv, he⟩

/-- Every user row produced by any public operation is an old row, a fresh
default row, or the stats-update image of an old row. -/
theorem applyOp_users (s : Store) (op : Op) :
    ∀ u ∈ (applyOp s op).users, u ∈ s.users ∨
      (u.current_streak = 0 ∧ u.longest_streak = 0 ∧ u.connection_depth = 1) ∨
      ∃ v now, v ∈ s.users ∧ u = updateUserFields v now := by
  intro u hu
  have fromGoc : ∀ now : Nat, ∀ uid : String,
      u ∈ (getOrCreateUser s uid now).2.users →
      u ∈ s.users ∨ (u.current_streak = 0 ∧ u.longest_streak = 0 ∧ u.connection_depth = 1) ∨
        ∃ v now, v ∈ s.users ∧ u = updateUserFields v now := by
    intro now uid h
    rcases getOrCreateUser_users s uid now u h with h1 | h1
    exacts [Or.inl h1, Or.inr (Or.inl h1)]
  cases op with
  | opGetOrCreateUser uid now => exact fromGoc now uid hu
  | opStoreObservation uid o i c r now => exact fromGoc now uid hu
  | opBatchStore uid inputs now =>
    simp only [applyOp, batchStoreObservations] at hu
    rw [(batchFold_effect _ now inputs _).1.1] at hu
    exact fromGoc now uid hu
  | opCreateMemory uid o i c r f p ii ib now => exact Or.inl hu
  | opCreateSession uid i o now => exact Or.inl hu
  | opLogInteraction uid i o now => exact fromGoc now uid hu
  | opUpdateRelevance mid sc =>
    simp only [applyOp] at hu
    rw [(updateMemoryRelevance_effect s mid sc).1] at hu
    exact Or.inl hu
  | opMarkSignificant mid =>
    simp only [applyOp, markMemoryAsSignificant] at hu
    rw [(updateMemoryRelevance_effect s mid 9).1] at hu
    exact Or.inl hu
  | opDecayRelevance mid =>
    simp only [applyOp, decayMemoryRelevance] at hu
    rw [(updateMemoryRelevance_effect s mid 3).1] at hu
    exact Or.inl hu
  | opUpdateStats uid now =>
    simp only [applyOp] at hu
    rcases (updateUserStats_effect s uid now).2.2.2 with h | h
    · rw [h] at hu
      exact Or.inl hu
    · rw [h] at hu
      rcases mem_updateFirstUser s.users uid _ u hu with h2 | ⟨v, hv, he⟩
      · exact Or.inl h2
      · exact Or.inr (Or.inr ⟨v, now, hv, he⟩)
  | opUnlockAchievement uid key now =>
    simp only [applyOp] at hu
    rw [(unlockAchievement_effect s uid key now).1] at hu
    exact Or.inl hu
  | opMarkCelebrated aid =>
    simp only [applyOp] at hu
    rw [(markAchievementCelebrated_effect s aid).1] at hu
    exact Or.inl hu
  | opCheckUnlock uid now =>
    simp only [applyOp, checkAndUnlockAchievements] at hu
    split at hu
    · exact Or.inl hu
    · rw [(runChecks_preserves uid now _ s).1] at hu
      exact Or.inl hu
  | opBuildContext uid nr nrel now => exact fromGoc now uid hu

/-- Rows surviving a first-match relevance update are old rows or an old
row with only its score replaced. -/
theorem mem_updateFirstMemory (l : List Memory) (mid : Nat) (sc : Int) :
    ∀ m ∈ updateFirstMemory l mid sc, m ∈ l ∨
      ∃ m0 ∈ l, m = { m0 with relevance_score := sc } := by
  induction l with
  | nil => intro m h; simp [updateFirstMemory] at h
  | cons w rest ih =>
    intro m h
    simp only [updateFirstMemory] at h
    by_cases hw : w.id = mid
    · rw [if_pos hw] at h
      rcases List.mem_cons.1 h with rfl | h2
      · exact Or.inr ⟨w, List.mem_cons_self _ _, rfl⟩
      · exact Or.inl (List.mem_cons_of_mem _ h2)
    · rw [if_neg hw] at h
      rcases List.mem_cons.1 h with rfl | h2
      · exact Or.inl (List.mem_cons_self _ _)
      · rcases ih m h2 with h3 | ⟨m0, hm0, he⟩
        · exact Or.inl (List.mem_cons_of_mem _ h3)
        · exact Or.inr ⟨m0, List.mem_cons_of_mem _ hm0, he⟩

/-- Every memory row produced by a score-wellformed public operation is an
old row or carries an in-range relevance score. -/
theorem applyOp_memories (s : Store) (op : Op) (hq : opScoresInRange op = true) :
    ∀ m ∈ (applyOp s op).memories,
      m ∈ s.memories ∨ (1 ≤ m.relevance_score ∧ m.relevance_score ≤ 10) := by
  intro m hm
  cases op with
  | opGetOrCreateUser uid now =>
    simp only [applyOp] at hm
    rw [(getOrCreateUser_preserves s uid now).1] at hm
    exact Or.inl hm
  | opStoreObservation uid o i c r now =>
    simp only [applyOp, storeObservation] at hm
    have he := createMemory_effect (getOrCreateUser s uid now).2
      (getOrCreateUser s uid now).1.id o i c r none none false false now
    rw [he.2.2.2.1] at hm
    rcases List.mem_append.1 hm with h | h
    · rw [(getOrCreateUser_preserves s uid now).1] at h
      exact Or.inl h
    · rw [List.mem_singleton] at h
      subst h
      rw [he.2.2.2.2]
      simp only [opScoresInRange, decide_eq_true_eq] at hq
      exact Or.inr hq
  | opBatchStore uid inputs now =>
    simp only [applyOp, batchStoreObservations] at hm
    rcases (batchFold_effect _ now inputs _).2 m hm with h | ⟨i, hi, he⟩
    · rw [(getOrCreateUser_preserves s uid now).1] at h
      exact Or.inl h
    · simp only [opScoresInRange, List.all_eq_true, decide_eq_true_eq] at hq
      rw [he]
      exact Or.inr (hq i hi)
  | opCreateMemory uid o i c r f p ii ib now =>
    simp only [applyOp] at hm
    have he := createMemory_effect s uid o i c r f p ii ib now
    rw [he.2.2.2.1] at hm
    rcases List.mem_append.1 hm with h | h
    · exact Or.inl h
    · rw [List.mem_singleton] at h
      subst h
      rw [he.2.2.2.2]
      simp only [opScoresInRange, decide_eq_true_eq] at hq
      exact Or.inr hq
  | opCreateSession uid i o now => exact Or.inl hm
  | opLogInteraction uid i o now =>
    refine Or.inl ?_
    rw [← (getOrCreateUser_preserves s uid now).1]
    exact hm
  | opUpdateRelevance mid sc =>
    simp only [applyOp] at hm
    rcases (updateMemoryRelevance_effect s mid sc).2.2.2 with h | h
    · rw [h] at hm
      exact Or.inl hm
    · rw [h] at hm
      rcases mem_updateFirstMemory s.memories mid sc m hm with h2 | ⟨m0, _, he⟩
      · exact Or.inl h2
      · subst he
        simp only [opScoresInRange, decide_eq_true_eq] at hq
        exact Or.inr hq
  | opMarkSignificant mid =>
    simp only [applyOp, markMemoryAsSignificant] at hm
    rcases (updateMemoryRelevance_effect s mid 9).2.2.2 with h | h
    · rw [h] at hm
      exact Or.inl hm
    · rw [h] at hm
      rcases mem_updateFirstMemory s.memories mid 9 m hm with h2 | ⟨m0, _, he⟩
      · exact Or.inl h2
      · subst he
        exact Or.inr (by constructor <;> norm_num)
  | opDecayRelevance mid =>
    simp only [applyOp, decayMemoryRelevance] at hm
    rcases (updateMemoryRelevance_effect s mid 3).2.2.2 with h | h
    · rw [h] at hm
      exact Or.inl hm
    · rw [h] at hm
      rcases mem_updateFirstMemory s.memories mid 3 m hm with h2 | ⟨m0, _, he⟩
      · exact Or.inl h2
      · subst he
        exact Or.inr (by constructor <;> norm_num)
  | opUpdateStats uid now =>
    simp only [applyOp] at hm
    rw [(updateUserStats_effect s uid now).1] at hm
    exact Or.inl hm
  | opUnlockAchievement uid key now =>
    simp only [applyOp] at hm
    rw [(unlockAchievement_effect s uid key now).2.1] at hm
    exact Or.inl hm
  | opMarkCelebrated aid =>
    simp only [applyOp] at hm
    rw [(markAchievementCelebrated_effect s aid).2.1] at hm
    exact Or.inl hm
  | opCheckUnlock uid now =>
    simp only [applyOp, checkAndUnlockAchievements] at hm
    split at hm
    · exact Or.inl hm
    · rw [(runChecks_preserves uid now _ s).2.1] at hm
      exact Or.inl hm
  | opBuildContext uid nr nrel now =>
    refine Or.inl ?_
    rw [← (getOrCreateUser_preserves s uid now).1]
    exact hm

/-! ## Claims C3 and C6: invariants over reachable stores -/

/-- Claim C3: in every store reachable through the public operations,
every user row satisfies longest streak at least the current streak and a
connection depth in 1..5. -/
theorem reachable_user_stats_invariant (s : Store) (h : Reachable s) :
    ∀ u ∈ s.users, u.current_streak ≤ u.longest_streak ∧
      1 ≤ u.connection_depth ∧ u.connection_depth ≤ 5 := by
  obtain ⟨ops, rfl⟩ := h
  refine foldl_applyOp_inv
    (fun st => ∀ u ∈ st.users, u.current_streak ≤ u.longest_streak ∧
      1 ≤ u.connection_depth ∧ u.connection_depth ≤ 5)
    (fun _ => True) ?_ ops initStore (fun _ _ => trivial) ?_
  · intro st op _ hP u hu
    rcases applyOp_users st op u hu with h1 | h1 | ⟨v, now, hv, he⟩
    · exact hP u h1
    · obtain ⟨e1, e2, e3⟩ := h1
      omega
    · subst he
      exact updateUserFields_ok v now
  · intro u hu
    simp [initStore] at hu

/-- Witness for C3 on a concrete two-operation trace. -/
theorem reachable_user_stats_invariant_witness :
    traceUserA ∈ traceStoreA.users ∧
    (traceUserA.current_streak ≤ traceUserA.longest_streak ∧
      1 ≤ traceUserA.connection_depth ∧ traceUserA.connection_depth ≤ 5) :=
  ⟨by decide,
    reachable_user_stats_invariant traceStoreA ⟨traceOpsA, rfl⟩ traceUserA (by decide)⟩

/-- Claim C6 (amended): relevance scores of stored memories stay in 1..10
provided every caller-supplied score (with the batch default of 5) is in
1..10; the repository itself performs no validation. -/
theorem relevance_scores_in_range_of_valid_inputs (ops : List Op)
    (h : ∀ op ∈ ops, opScoresInRange op = true) :
    ∀ m ∈ (ops.foldl applyOp initStore).memories,
      1 ≤ m.relevance_score ∧ m.relevance_score ≤ 10 := by
  refine foldl_applyOp_inv
    (fun st => ∀ m ∈ st.memories, 1 ≤ m.relevance_score ∧ m.relevance_score ≤ 10)
    (fun op => opScoresInRange op = true) ?_ ops initStore h ?_
  · intro st op hq hP m hm
    rcases applyOp_memories st op hq m hm with h1 | h1
    · exact hP m h1
    · exact h1
  · intro m hm
    simp [initStore] at hm

/-- Witness for the amended C6 on a concrete trace. -/
theorem relevance_scores_in_range_witness :
    (∀ op ∈ traceOpsC, opScoresInRange op = true) ∧
    (1 ≤ traceMemoryC.relevance_score ∧ traceMemoryC.relevance_score ≤ 10) :=
  ⟨by decide,
    relevance_scores_in_range_of_valid_inputs traceOpsC (by decide) traceMemoryC (by decide)⟩

/-- Counterexample to C6 as stated: the store accepts a relevance score of
11 through `store_observation` and persists it unvalidated. -/
theorem relevance_scores_counterexample :
    ∃ m ∈ (List.foldl applyOp initStore
      [Op.opStoreObservation ("alice") ("an obs") none none 11 0]).memories,
      ¬(1 ≤ m.relevance_score ∧ m.relevance_score ≤ 10) := by decide

/-- Where each prior memory row ends up after a first-match relevance
update: rows with another id survive unchanged, and every row survives
with at most its score replaced. -/
theorem updateFirstMemory_cases (l : List Memory) (mid : Nat) (sc : Int) :
    ∀ m ∈ l, (m.id ≠ mid → m ∈ updateFirstMemory l mid sc) ∧
      (m ∈ updateFirstMemory l mid sc ∨
        { m with relevance_score := sc } ∈ updateFirstMemory l mid sc) := by
  induction l with
  | nil => intro m h; simp at h
  | cons w rest ih =>
    intro m h
    simp only [updateFirstMemory]
    by_cases hw : w.id = mid
    · rw [if_pos hw]
      rcases List.mem_cons.1 h with rfl | h2
      · exact ⟨fun hne => absurd hw hne, Or.inr (List.mem_cons_self _ _)⟩
      · exact ⟨fun _ => List.mem_cons_of_mem _ h2,
          Or.inl (List.mem_cons_of_mem _ h2)⟩
    · rw [if_neg hw]
      rcases List.mem_cons.1 h with rfl | h2
      · exact ⟨fun _ => List.mem_cons_self _ _, Or.inl (List.mem_cons_self _ _)⟩
      · rcases ih m h2 with ⟨h3, h4⟩
        refine ⟨fun hne => List.mem_cons_of_mem _ (h3 hne), ?_⟩
        rcases h4 with h4 | h4
        · exact Or.inl (List.mem_cons_of_mem _ h4)
        · exact Or.inr (List.mem_cons_of_mem _ h4)

/-- One `batch_store_observations` iteration never removes memory rows. -/
theorem batchStep_mono (uid now : Nat) (acc : List Memory × Store) (ob : ObsInput) :
    ∀ m ∈ acc.2.memories, m ∈ (batchStep uid now acc ob).2.memories := by
  intro m hm
  rcases ho : ob.observation with _ | o
  · simp only [batchStep, ho]
    exact hm
  · by_cases h0 : o = ""
    · simp only [batchStep, ho, if_pos h0]
      exact hm
    · simp only [batchStep, ho, if_neg h0, createMemory]
      exact List.mem_append_left _ hm

/-- The `batch_store_observations` fold never removes memory rows. -/
theorem batchFold_mono (uid now : Nat) :
    ∀ (inputs : List ObsInput) (acc : List Memory × Store),
      ∀ m ∈ acc.2.memories, m ∈ (inputs.foldl (batchStep uid now) acc).2.memories := by
  intro inputs
  induction inputs with
  | nil => intro acc m hm; exact hm
  | cons ob rest ih =>
    intro acc m hm
    rw [List.foldl_cons]
    exact ih (batchStep uid now acc ob) m (batchStep_mono uid now acc ob m hm)

/-- No public operation other than the relevance updates removes or
modifies an existing memory row. -/
theorem applyOp_memories_mono (s : Store) (op : Op)
    (h : touchesRelevance op = false) :
    ∀ m ∈ s.memories, m ∈ (applyOp s op).memories := by
  intro m hm
  cases op with
  | opGetOrCreateUser uid now =>
    simp only [applyOp]
    rw [(getOrCreateUser_preserves s uid now).1]
    exact hm
  | opStoreObservation uid o i c r now =>
    simp only [applyOp, storeObservation]
    rw [(createMemory_effect (getOrCreateUser s uid now).2
      (getOrCreateUser s uid now).1.id o i c r none none false false now).2.2.2.1,
      (getOrCreateUser_preserves s uid now).1]
    exact List.mem_append_left _ hm
  | opBatchStore uid inputs now =>
    simp only [applyOp, batchStoreObservations]
    refine batchFold_mono _ now inputs _ m ?_
    rw [(getOrCreateUser_preserves s uid now).1]
    exact hm
  | opCreateMemory uid o i c r f p ii ib now =>
    simp only [applyOp]
    rw [(createMemory_effect s uid o i c r f p ii ib now).2.2.2.1]
    exact List.mem_append_left _ hm
  | opCreateSession uid i o now => exact hm
  | opLogInteraction uid i o now =>
    show m ∈ (getOrCreateUser s uid now).2.memories
    rw [(getOrCreateUser_preserves s uid now).1]
    exact hm
  | opUpdateRelevance mid sc => simp [touchesRelevance] at h
  | opMarkSignificant mid => simp [touchesRelevance] at h
  | opDecayRelevance mid => simp [touchesRelevance] at h
  | opUpdateStats uid now =>
    simp only [applyOp]
    rw [(updateUserStats_effect s uid now).1]
    exact hm
  | opUnlockAchievement uid key now =>
    simp only [applyOp]
    rw [(unlockAchievement_effect s uid key now).2.1]
    exact hm
  | opMarkCelebrated aid =>
    simp only [applyOp]
    rw [(markAchievementCelebrated_effect s aid).2.1]
    exact hm
  | opCheckUnlock uid now =>
    simp only [applyOp, checkAndUnlockAchievements]
    split
    · exact hm
    · rw [(runChecks_preserves uid now _ s).2.1]
      exact hm
  | opBuildContext uid nr nrel now =>
    show m ∈ (getOrCreateUser s uid now).2.memories
    rw [(getOrCreateUser_preserves s uid now).1]
    exact hm

/-- Claim C7: `update_memory_relevance` rewrites only the relevance score
of the targeted memory: rows with another id survive unchanged, every row
survives with all non-score fields intact, the returned row carries the
new score, and no other public operation removes or modifies an existing
memory row. -/
theorem updateMemoryRelevance_frame (s : Store) (mid : Nat) (sc : Int) (op : Op) :
    (∀ m', (updateMemoryRelevance s mid sc).1 = some m' → m'.relevance_score = sc) ∧
    (∀ m ∈ s.memories,
      (m.id ≠ mid → m ∈ (updateMemoryRelevance s mid sc).2.memories) ∧
      (∃ m' ∈ (updateMemoryRelevance s mid sc).2.memories,
        m'.id = m.id ∧ m'.user_id = m.user_id ∧ m'.observation = m.observation ∧
        m'.interpretation = m.interpretation ∧ m'.category = m.category ∧
        m'.created_at = m.created_at ∧ m'.follow_up_question = m.follow_up_question ∧
        m'.people_mentioned = m.people_mentioned ∧
        m'.is_identity_statement = m.is_identity_statement ∧
        m'.is_breakthrough_moment = m.is_breakthrough_moment)) ∧
    (touchesRelevance op = false → ∀ m ∈ s.memories, m ∈ (applyOp s op).memories) := by
  refine ⟨?_, ?_, fun ht m hm => applyOp_memories_mono s op ht m hm⟩
  · intro m' he
    rcases h : s.memories.find? (fun m => m.id == mid) with _ | m1
    · simp only [updateMemoryRelevance, h] at he
      exact Option.noConfusion he
    · simp only [updateMemoryRelevance, h, Option.some.injEq] at he
      subst he
      rfl
  · intro m hm
    rcases h : s.memories.find? (fun m => m.id == mid) with _ | m1 <;>
      simp only [updateMemoryRelevance, h]
    · exact ⟨fun _ => hm, ⟨m, hm, rfl, rfl, rfl, rfl, rfl, rfl, rfl, rfl, rfl, rfl⟩⟩
    · rcases updateFirstMemory_cases s.memories mid sc m hm with ⟨h1, h2⟩
      refine ⟨h1, ?_⟩
      rcases h2 with h2 | h2
      · exact ⟨m, h2, rfl, rfl, rfl, rfl, rfl, rfl, rfl, rfl, rfl, rfl⟩
      · exact ⟨{ m with relevance_score := sc }, h2,
          rfl, rfl, rfl, rfl, rfl, rfl, rfl, rfl, rfl, rfl⟩

/-- Witness for C7: an untargeted memory survives a relevance update. -/
theorem updateMemoryRelevance_frame_witness :
    traceMemoryC ∈ traceStoreC.memories ∧
    traceMemoryC ∈ (updateMemoryRelevance traceStoreC 2 7).2.memories :=
  ⟨by decide,
    ((updateMemoryRelevance_frame traceStoreC 2 7
      (Op.opCreateSession 1 ("hello") ("reply") 0)).2.1 traceMemoryC (by decide)).1
      (by decide)⟩

/-- A celebrated achievement keeps a celebrated row with its id through a
first-match celebration update. -/
theorem updateFirstAch_mem_true (l : List Achievement) (aid : Nat) :
    ∀ a ∈ l, a.celebrated = true →
      ∃ a' ∈ updateFirstAch l aid, a'.id = a.id ∧ a'.celebrated = true := by
  induction l with
  | nil => intro a h; simp at h
  | cons w rest ih =>
    intro a h hc
    simp only [updateFirstAch]
    by_cases hw : w.id = aid
    · rw [if_pos hw]
      rcases List.mem_cons.1 h with rfl | h2
      · exact ⟨{ a with celebrated := true }, List.mem_cons_self _ _, rfl, rfl⟩
      · exact ⟨a, List.mem_cons_of_mem _ h2, rfl, hc⟩
    · rw [if_neg hw]
      rcases List.mem_cons.1 h with rfl | h2
      · exact ⟨a, List.mem_cons_self _ _, rfl, hc⟩
      · rcases ih a h2 hc with ⟨a', ha', he, hc'⟩
        exact ⟨a', List.mem_cons_of_mem _ ha', he, hc'⟩

/-- No public operation other than `mark_achievement_celebrated` removes
or modifies an existing achievement row. -/
theorem applyOp_ach_mono (s : Store) (op : Op)
    (h : touchesCelebrated op = false) :
    ∀ a ∈ s.achievements, a ∈ (applyOp s op).achievements := by
  intro a ha
  cases op with
  | opGetOrCreateUser uid now =>
    simp only [applyOp]
    rw [(getOrCreateUser_preserves s uid now).2.2]
    exact ha
  | opStoreObservation uid o i c r now =>
    show a ∈ (createMemory (getOrCreateUser s uid now).2
      (getOrCreateUser s uid now).1.id o i c r none none false false now).2.achievements
    rw [(createMemory_effect (getOrCreateUser s uid now).2
      (getOrCreateUser s uid now).1.id o i c r none none false false now).2.2.1,
      (getOrCreateUser_preserves s uid now).2.2]
    exact ha
  | opBatchStore uid inputs now =>
    simp only [applyOp, batchStoreObservations]
    rw [(batchFold_effect _ now inputs _).1.2.2, (getOrCreateUser_preserves s uid now).2.2]
    exact ha
  | opCreateMemory uid o i c r f p ii ib now => exact ha
  | opCreateSession uid i o now => exact ha
  | opLogInteraction uid i o now =>
    show a ∈ (getOrCreateUser s uid now).2.achievements
    rw [(getOrCreateUser_preserves s uid now).2.2]
    exact ha
  | opUpdateRelevance mid sc =>
    simp only [applyOp]
    rw [(updateMemoryRelevance_effect s mid sc).2.2.1]
    exact ha
  | opMarkSignificant mid =>
    simp only [applyOp, markMemoryAsSignificant]
    rw [(updateMemoryRelevance_effect s mid 9).2.2.1]
    exact ha
  | opDecayRelevance mid =>
    simp only [applyOp, decayMemoryRelevance]
    rw [(updateMemoryRelevance_effect s mid 3).2.2.1]
    exact ha
  | opUpdateStats uid now =>
    simp only [applyOp]
    rw [(updateUserStats_effect s uid now).2.2.1]
    exact ha
  | opUnlockAchievement uid key now =>
    simp only [applyOp]
    rcases (unlockAchievement_effect s uid key now).2.2.2 with he | ⟨b, he, _⟩
    · rw [he]; exact ha
    · rw [he]; exact List.mem_append_left _ ha
  | opMarkCelebrated aid => simp [touchesCelebrated] at h
  | opCheckUnlock uid now =>
    simp only [applyOp, checkAndUnlockAchievements]
    split
    · exact ha
    · exact runChecks_ach_mono uid now _ s a ha
  | opBuildContext uid nr nrel now =>
    show a ∈ (getOrCreateUser s uid now).2.achievements
    rw [(getOrCreateUser_preserves s uid now).2.2]
    exact ha

/-- Claim C8: achievements are created with `celebrated = false`; once an
achievement row is celebrated, every public operation keeps a celebrated
row with its id; and no operation other than
`mark_achievement_celebrated` removes or modifies an existing achievement
row. -/
theorem celebrated_flag_lifecycle :
    (∀ (s : Store) (uid : Nat) (key : String) (now : Nat) (a : Achievement),
      (unlockAchievement s uid key now).1 = some a → a.celebrated = false) ∧
    (∀ (s : Store) (op : Op) (a : Achievement), a ∈ s.achievements →
      a.celebrated = true →
      ∃ a' ∈ (applyOp s op).achievements, a'.id = a.id ∧ a'.celebrated = true) ∧
    (∀ (s : Store) (op : Op), touchesCelebrated op = false →
      ∀ a ∈ s.achievements, a ∈ (applyOp s op).achievements) := by
  refine ⟨?_, ?_, fun s op ht a ha => applyOp_ach_mono s op ht a ha⟩
  · intro s uid key now a he
    by_cases h : hasAchievement s uid key = true
    · simp only [unlockAchievement, if_pos h] at he
      exact Option.noConfusion he
    · simp only [unlockAchievement, if_neg h, Option.some.injEq] at he
      subst he
      rfl
  · intro s op a ha hc
    cases op
    case opMarkCelebrated aid =>
      simp only [applyOp]
      rcases (markAchievementCelebrated_effect s aid).2.2.2 with he | he
      · rw [he]
        exact ⟨a, ha, rfl, hc⟩
      · rw [he]
        exact updateFirstAch_mem_true s.achievements aid a ha hc
    all_goals exact ⟨a, applyOp_ach_mono s _ (by simp [touchesCelebrated]) a ha, rfl, hc⟩

/-- Witness for C8: a freshly unlocked achievement is uncelebrated. -/
theorem celebrated_flag_lifecycle_witness :
    (unlockAchievement demoStore 1 ("first_step") 5).1 = some demoAchievement ∧
    demoAchievement.celebrated = false :=
  ⟨by decide,
    celebrated_flag_lifecycle.1 demoStore 1 ("first_step") 5 demoAchievement (by decide)⟩

/-! ## Achievement uniqueness and idempotency: claim C4 -/

/-- Unlocking an already-held key is a strict no-op. -/
theorem unlock_eq_none (s : Store) (uid : Nat) (key : String) (now : Nat)
    (h : hasAchievement s uid key = true) :
    unlockAchievement s uid key now = (none, s) := by
  simp [unlockAchievement, h]

/-- Unlocking a missing key appends exactly one fresh uncelebrated row. -/
theorem unlock_eq_some (s : Store) (uid : Nat) (key : String) (now : Nat)
    (h : hasAchievement s uid key = false) :
    unlockAchievement s uid key now =
      (some { id := s.nextAchievementId, user_id := uid, achievement_key := key,
              unlocked_at := now, celebrated := false },
       { s with
         achievements := s.achievements ++
           [{ id := s.nextAchievementId, user_id := uid, achievement_key := key,
              unlocked_at := now, celebrated := false }],
         nextAchievementId := s.nextAchievementId + 1 }) := by
  simp [unlockAchievement, h]

/-- Key possession after a successful unlock: the old keys plus the new one. -/
theorem has_after_unlock (s : Store) (uid : Nat) (key : String) (now : Nat)
    (h : hasAchievement s uid key = false) (k' : String) :
    hasAchievement (unlockAchievement s uid key now).2 uid k' = true ↔
      (hasAchievement s uid k' = true ∨ k' = key) := by
  rw [unlock_eq_some s uid key now h]
  simp only [hasAchievement, List.any_append, List.any_cons, List.any_nil,
    Bool.or_false, Bool.or_eq_true, Bool.and_eq_true, beq_iff_eq,
    beq_self_eq_true, Bool.true_and, true_and]
  constructor
  · rintro (h2 | h2)
    · exact Or.inl h2
    · exact Or.inr h2.symm
  · rintro (h2 | h2)
    · exact Or.inl h2
    · exact Or.inr h2.symm

/-- Key absence after a successful unlock. -/
theorem has_after_unlock_false (s : Store) (uid : Nat) (key : String) (now : Nat)
    (h : hasAchievement s uid key = false) (k' : String) :
    hasAchievement (unlockAchievement s uid key now).2 uid k' = false ↔
      (hasAchievement s uid k' = false ∧ k' ≠ key) := by
  have h1 := has_after_unlock s uid key now h k'
  constructor
  · intro h2
    rw [← Bool.not_eq_true, h1] at h2
    push_neg at h2
    exact ⟨Bool.not_eq_true _ ▸ h2.1, h2.2⟩
  · intro h2
    rw [← Bool.not_eq_true, h1]
    push_neg
    exact ⟨by rw [h2.1]; exact Bool.false_ne_true, h2.2⟩

/-- Keys already held survive the whole check loop. -/
theorem runChecks_has_mono (uid now : Nat) :
    ∀ (l : List (String × Bool)) (s : Store) (k : String),
      hasAchievement s uid k = true →
      hasAchievement (runChecks uid now s l).2 uid k = true := by
  intro l
  induction l with
  | nil => intro s k hk; exact hk
  | cons p rest ih =>
    intro s k hk
    obtain ⟨k0, c⟩ := p
    cases c
    · simp only [runChecks, Bool.false_eq_true, if_false]
      exact ih s k hk
    · by_cases hh : hasAchievement s uid k0 = true
      · simp only [runChecks, unlock_eq_none s uid k0 now hh, if_true]
        exact ih s k hk
      · rw [Bool.not_eq_true] at hh
        simp only [runChecks, unlock_eq_some s uid k0 now hh, if_true]
        refine ih _ k ?_
        have h2 := (has_after_unlock s uid k0 now hh k).2 (Or.inl hk)
        rw [unlock_eq_some s uid k0 now hh] at h2
        exact h2

/-- After the check loop every key whose condition bit was set is held. -/
theorem runChecks_cond_has (uid now : Nat) :
    ∀ (l : List (String × Bool)) (s : Store) (k : String),
      (k, true) ∈ l →
      hasAchievement (runChecks uid now s l).2 uid k = true := by
  intro l
  induction l with
  | nil => intro s k hk; simp at hk
  | cons p rest ih =>
    intro s k hk
    obtain ⟨k0, c⟩ := p
    rcases List.mem_cons.1 hk with he | hmem
    · rw [Prod.mk.injEq] at he
      obtain ⟨rfl, hc⟩ := he
      subst hc
      by_cases hh : hasAchievement s uid k = true
      · simp only [runChecks, unlock_eq_none s uid k now hh, if_true]
        exact runChecks_has_mono uid now rest s k hh
      · rw [Bool.not_eq_true] at hh
        simp only [runChecks, unlock_eq_some s uid k now hh, if_true]
        have h2 := (has_after_unlock s uid k now hh k).2 (Or.inr rfl)
        rw [unlock_eq_some s uid k now hh] at h2
        exact runChecks_has_mono uid now rest _ k h2
    · cases c
      · simp only [runChecks, Bool.false_eq_true, if_false]
        exact ih s k hmem
      · by_cases hh : hasAchievement s uid k0 = true
        · simp only [runChecks, unlock_eq_none s uid k0 now hh, if_true]
          exact ih s k hmem
        · rw [Bool.not_eq_true] at hh
          simp only [runChecks, unlock_eq_some s uid k0 now hh, if_true]
          exact ih _ k hmem

/-- The check loop does nothing when every set condition is already held. -/
theorem runChecks_noop (uid now : Nat) :
    ∀ (l : List (String × Bool)) (s : Store),
      (∀ p ∈ l, p.2 = true → hasAchievement s uid p.1 = true) →
      runChecks uid now s l = ([], s) := by
  intro l
  induction l with
  | nil => intro s _; rfl
  | cons p rest ih =>
    intro s h
    obtain ⟨k0, c⟩ := p
    cases c
    · simp only [runChecks, Bool.false_eq_true, if_false]
      exact ih s (fun q hq => h q (List.mem_cons_of_mem _ hq))
    · have hh : hasAchievement s uid k0 = true := h (k0, true) (List.mem_cons_self _ _) rfl
      simp only [runChecks, unlock_eq_none s uid k0 now hh, if_true]
      exact ih s (fun q hq => h q (List.mem_cons_of_mem _ hq))

/-- The keys unlocked by the check loop are exactly the set conditions not
already held. -/
theorem runChecks_keys (uid now : Nat) :
    ∀ (l : List (String × Bool)) (s : Store) (k : String),
      (∃ a ∈ (runChecks uid now s l).1, a.achievement_key = k) ↔
        ((k, true) ∈ l ∧ hasAchievement s uid k = false) := by
  intro l
  induction l with
  | nil =>
    intro s k
    simp [runChecks]
  | cons p rest ih =>
    intro s k
    obtain ⟨k0, c⟩ := p
    cases c
    · simp only [runChecks, Bool.false_eq_true, if_false]
      rw [ih s k]
      constructor
      · rintro ⟨h1, h2⟩
        exact ⟨List.mem_cons_of_mem _ h1, h2⟩
      · rintro ⟨h1, h2⟩
        rcases List.mem_cons.1 h1 with he | h1'
        · simp at he
        · exact ⟨h1', h2⟩
    · by_cases hh : hasAchievement s uid k0 = true
      · simp only [runChecks, unlock_eq_none s uid k0 now hh, if_true]
        rw [ih s k]
        constructor
        · rintro ⟨h1, h2⟩
          exact ⟨List.mem_cons_of_mem _ h1, h2⟩
        · rintro ⟨h1, h2⟩
          rcases List.mem_cons.1 h1 with he | h1'
          · rw [Prod.mk.injEq] at he
            obtain ⟨rfl, -⟩ := he
            rw [h2] at hh
            exact Bool.noConfusion hh
          · exact ⟨h1', h2⟩
      · rw [Bool.not_eq_true] at hh
        have hS := has_after_unlock_false s uid k0 now hh k
        rw [unlock_eq_some s uid k0 now hh] at hS
        simp only [runChecks, unlock_eq_some s uid k0 now hh, if_true]
        constructor
        · rintro ⟨a, ha, hak⟩
          rcases List.mem_cons.1 ha with rfl | ha'
          · subst hak
            exact ⟨List.mem_cons_self _ _, hh⟩
          · have h3 := (ih _ k).1 ⟨a, ha', hak⟩
            have h4 := hS.1 h3.2
            exact ⟨List.mem_cons_of_mem _ h3.1, h4.1⟩
        · rintro ⟨h1, h2⟩
          by_cases hk : k = k0
          · subst hk
            exact ⟨_, List.mem_cons_self _ _, rfl⟩
          · rcases List.mem_cons.1 h1 with he | h1'
            · rw [Prod.mk.injEq] at he
              exact absurd he.1 hk
            · have h5 := hS.2 ⟨h2, hk⟩
              obtain ⟨a, ha, hak⟩ := (ih _ k).2 ⟨h1', h5⟩
              exact ⟨a, List.mem_cons_of_mem _ ha, hak⟩

/-- The achievement condition table depends only on the user and memory
tables. -/
theorem achievementChecks_congr (s1 s2 : Store) (uid : Nat)
    (hu : s1.users = s2.users) (hm : s1.memories = s2.memories) :
    achievementChecks s1 uid = achievementChecks s2 uid := by
  unfold achievementChecks findUserById getRecentMemories
  rw [hu, hm]

/-- Unlocking preserves the at-most-one-row-per-(user, key) property. -/
theorem unlock_pairwise (s : Store) (uid : Nat) (key : String) (now : Nat)
    (h : List.Pairwise
      (fun a b => ¬(a.user_id = b.user_id ∧ a.achievement_key = b.achievement_key))
      s.achievements) :
    List.Pairwise
      (fun a b => ¬(a.user_id = b.user_id ∧ a.achievement_key = b.achievement_key))
      (unlockAchievement s uid key now).2.achievements := by
  by_cases hh : hasAchievement s uid key = true
  · rw [unlock_eq_none s uid key now hh]
    exact h
  · rw [Bool.not_eq_true] at hh
    rw [unlock_eq_some s uid key now hh]
    refine List.pairwise_append.2 ⟨h, List.pairwise_singleton _ _, ?_⟩
    intro x hx y hy
    rw [List.mem_singleton] at hy
    subst hy
    rintro ⟨e1, e2⟩
    have h2 : hasAchievement s uid key = true := by
      simp only [hasAchievement, List.any_eq_true]
      refine ⟨x, hx, ?_⟩
      simp only [Bool.and_eq_true, beq_iff_eq]
      exact ⟨e1, e2⟩
    rw [hh] at h2
    exact Bool.noConfusion h2

/-- The check loop preserves the at-most-one-row-per-(user, key) property. -/
theorem runChecks_pairwise (uid now : Nat) :
    ∀ (l : List (String × Bool)) (s : Store),
      List.Pairwise
        (fun a b => ¬(a.user_id = b.user_id ∧ a.achievement_key = b.achievement_key))
        s.achievements →
      List.Pairwise
        (fun a b => ¬(a.user_id = b.user_id ∧ a.achievement_key = b.achievement_key))
        (runChecks uid now s l).2.achievements := by
  intro l
  induction l with
  | nil => intro s h; exact h
  | cons p rest ih =>
    intro s h
    obtain ⟨k0, c⟩ := p
    cases c
    · simp only [runChecks, Bool.false_eq_true, if_false]
      exact ih s h
    · by_cases hh : hasAchievement s uid k0 = true
      · simp only [runChecks, unlock_eq_none s uid k0 now hh, if_true]
        exact ih s h
      · rw [Bool.not_eq_true] at hh
        have hp2 := unlock_pairwise s uid k0 now h
        rw [unlock_eq_some s uid k0 now hh] at hp2
        simp only [runChecks, unlock_eq_some s uid k0 now hh, if_true]
        exact ih _ hp2

/-- Rows surviving a first-match celebration update keep their user and
key. -/
theorem mem_updateFirstAch_back (l : List Achievement) (aid : Nat) :
    ∀ b ∈ updateFirstAch l aid,
      ∃ b0 ∈ l, b.user_id = b0.user_id ∧ b.achievement_key = b0.achievement_key := by
  induction l with
  | nil => intro b h; simp [updateFirstAch] at h
  | cons w rest ih =>
    intro b h
    simp only [updateFirstAch] at h
    by_cases hw : w.id = aid
    · rw [if_pos hw] at h
      rcases List.mem_cons.1 h with rfl | h2
      · exact ⟨w, List.mem_cons_self _ _, rfl, rfl⟩
      · exact ⟨b, List.mem_cons_of_mem _ h2, rfl, rfl⟩
    · rw [if_neg hw] at h
      rcases List.mem_cons.1 h with rfl | h2
      · exact ⟨b, List.mem_cons_self _ _, rfl, rfl⟩
      · obtain ⟨b0, hb0, e1, e2⟩ := ih b h2
        exact ⟨b0, List.mem_cons_of_mem _ hb0, e1, e2⟩

/-- A first-match celebration update preserves the
at-most-one-row-per-(user, key) property. -/
theorem updateFirstAch_pairwise (aid : Nat) :
    ∀ l : List Achievement,
      List.Pairwise
        (fun a b => ¬(a.user_id = b.user_id ∧ a.achievement_key = b.achievement_key)) l →
      List.Pairwise
        (fun a b => ¬(a.user_id = b.user_id ∧ a.achievement_key = b.achievement_key))
        (updateFirstAch l aid) := by
  intro l
  induction l with
  | nil => intro h; exact h
  | cons w rest ih =>
    intro h
    rcases List.pairwise_cons.1 h with ⟨hw, hrest⟩
    simp only [updateFirstAch]
    by_cases hw0 : w.id = aid
    · rw [if_pos hw0]
      refine List.pairwise_cons.2 ⟨?_, hrest⟩
      intro b hb
      rintro ⟨e1, e2⟩
      exact hw b hb ⟨e1, e2⟩
    · rw [if_neg hw0]
      refine List.pairwise_cons.2 ⟨?_, ih hrest⟩
      intro b hb
      obtain ⟨b0, hb0, e1, e2⟩ := mem_updateFirstAch_back rest aid b hb
      rintro ⟨f1, f2⟩
      exact hw b0 hb0 ⟨f1.trans e1, f2.trans e2⟩

/-- Every public operation preserves the at-most-one-row-per-(user, key)
property of the achievement table. -/
theorem applyOp_ach_pairwise (s : Store) (op : Op)
    (h : List.Pairwise
      (fun a b => ¬(a.user_id = b.user_id ∧ a.achievement_key = b.achievement_key))
      s.achievements) :
    List.Pairwise
      (fun a b => ¬(a.user_id = b.user_id ∧ a.achievement_key = b.achievement_key))
      (applyOp s op).achievements := by
  cases op with
  | opGetOrCreateUser uid now =>
    simp only [applyOp]
    rw [(getOrCreateUser_preserves s uid now).2.2]
    exact h
  | opStoreObservation uid o i c r now =>
    show List.Pairwise _ (createMemory (getOrCreateUser s uid now).2
      (getOrCreateUser s uid now).1.id o i c r none none false false now).2.achievements
    rw [(createMemory_effect (getOrCreateUser s uid now).2
      (getOrCreateUser s uid now).1.id o i c r none none false false now).2.2.1,
      (getOrCreateUser_preserves s uid now).2.2]
    exact h
  | opBatchStore uid inputs now =>
    simp only [applyOp, batchStoreObservations]
    rw [(batchFold_effect _ now inputs _).1.2.2, (getOrCreateUser_preserves s uid now).2.2]
    exact h
  | opCreateMemory uid o i c r f p ii ib now => exact h
  | opCreateSession uid i o now => exact h
  | opLogInteraction uid i o now =>
    show List.Pairwise _ (getOrCreateUser s uid now).2.achievements
    rw [(getOrCreateUser_preserves s uid now).2.2]
    exact h
  | opUpdateRelevance mid sc =>
    simp only [applyOp]
    rw [(updateMemoryRelevance_effect s mid sc).2.2.1]
    exact h
  | opMarkSignificant mid =>
    simp only [applyOp, markMemoryAsSignificant]
    rw [(updateMemoryRelevance_effect s mid 9).2.2.1]
    exact h
  | opDecayRelevance mid =>
    simp only [applyOp, decayMemoryRelevance]
    rw [(updateMemoryRelevance_effect s mid 3).2.2.1]
    exact h
  | opUpdateStats uid now =>
    simp only [applyOp]
    rw [(updateUserStats_effect s uid now).2.2.1]
    exact h
  | opUnlockAchievement uid key now =>
    simp only [applyOp]
    exact unlock_pairwise s uid key now h
  | opMarkCelebrated aid =>
    simp only [applyOp]
    rcases (markAchievementCelebrated_effect s aid).2.2.2 with he | he
    · rw [he]
      exact h
    · rw [he]
      exact updateFirstAch_pairwise aid s.achievements h
  | opCheckUnlock uid now =>
    simp only [applyOp, checkAndUnlockAchievements]
    split
    · exact h
    · exact runChecks_pairwise uid now (achievementChecks s uid) s h
  | opBuildContext uid nr nrel now =>
    show List.Pairwise _ (getOrCreateUser s uid now).2.achievements
    rw [(getOrCreateUser_preserves s uid now).2.2]
    exact h

/-- Claim C4: in every reachable store at most one achievement row exists
per (user, key) pair, and `check_and_unlock_achievements` is idempotent:
one pass unlocks exactly the keys whose condition is set and that are not
yet held, and a second pass on the resulting store unlocks nothing and
leaves the store unchanged. -/
theorem achievements_unique_and_check_idempotent :
    (∀ s, Reachable s →
      List.Pairwise
        (fun a b => ¬(a.user_id = b.user_id ∧ a.achievement_key = b.achievement_key))
        s.achievements) ∧
    (∀ (s : Store) (uid now : Nat),
      (∀ k, (∃ a ∈ (checkAndUnlockAchievements s uid now).1, a.achievement_key = k) ↔
        ((k, true) ∈ achievementChecks s uid ∧ hasAchievement s uid k = false)) ∧
      checkAndUnlockAchievements (checkAndUnlockAchievements s uid now).2 uid now =
        ([], (checkAndUnlockAchievements s uid now).2)) := by
  constructor
  · intro s hr
    obtain ⟨ops, rfl⟩ := hr
    refine foldl_applyOp_inv
      (fun st => List.Pairwise
        (fun a b => ¬(a.user_id = b.user_id ∧ a.achievement_key = b.achievement_key))
        st.achievements)
      (fun _ => True) ?_ ops initStore (fun _ _ => trivial) (by simp [initStore])
    intro st op _ hP
    exact applyOp_ach_pairwise st op hP
  · intro s uid now
    rcases hf : findUserById s uid with _ | u
    · constructor
      · intro k
        simp [checkAndUnlockAchievements, hf, achievementChecks]
      · simp [checkAndUnlockAchievements, hf]
    · constructor
      · intro k
        simp only [checkAndUnlockAchievements, hf]
        exact runChecks_keys uid now (achievementChecks s uid) s k
      · simp only [checkAndUnlockAchievements, hf]
        have hp := runChecks_preserves uid now (achievementChecks s uid) s
        have hu2 : findUserById (runChecks uid now s (achievementChecks s uid)).2 uid = some u := by
          unfold findUserById
          rw [hp.1]
          exact hf
        rw [hu2]
        rw [achievementChecks_congr (runChecks uid now s (achievementChecks s uid)).2 s uid
          hp.1 hp.2.1]
        refine runChecks_noop uid now (achievementChecks s uid) _ ?_
        intro p hp2 hpt
        obtain ⟨k, c⟩ := p
        subst hpt
        exact runChecks_cond_has uid now (achievementChecks s uid) s k hp2

/-- Witness for C4 on a concrete trace that has unlocked an achievement. -/
theorem achievements_unique_and_check_idempotent_witness :
    List.Pairwise
      (fun a b => ¬(a.user_id = b.user_id ∧ a.achievement_key = b.achievement_key))
      traceStoreB.achievements ∧
    checkAndUnlockAchievements (checkAndUnlockAchievements traceStoreB 1 91000).2 1 91000 =
      ([], (checkAndUnlockAchievements traceStoreB 1 91000).2) :=
  ⟨achievements_unique_and_check_idempotent.1 traceStoreB ⟨traceOpsB, rfl⟩,
    (achievements_unique_and_check_idempotent.2 traceStoreB 1 91000).2⟩
